import Mathlib

/-
Shallow embedding of the golden-ratio MIDI composition engine
(music_theory.py and midi_generator.py).

Modelling conventions:
* Python ints are `Int`; Python lists are `List`.
* Python floats are modelled as exact rationals `ℚ`.  Subexpressions whose
  float value depends on the irrational φ — `i*phi`, `math.sin(i*phi)`,
  `math.sin(i*phi*2)` — and the draws of `random.random()` are supplied by
  an `Oracle` of streams: each stream yields the (rational) double value of
  the corresponding Python expression.  Claims quantified over "every
  outcome of the random draws" become claims quantified over the oracle.
* Python `int(x)` truncates toward zero — `pyInt`.
  Python `x % m` on floats is floor-style — `pymod`.
  Python `a // b` on ints is floor division — `Int.fdiv`.
  Python `a % b` on ints with positive `b` agrees with `Int.emod`.
* Python list indexing is modelled with `List.getD`; every index reached by
  the code under the hypotheses of the claims is proved to be in range, so the
  default is never observed.
-/

namespace RandomMidi

/-- A note event: (pitch, duration in ticks, velocity). -/
abbrev Note : Type := Int × Int × Int

/-- Python `int()` applied to a float: truncation toward zero. -/
def pyInt (q : ℚ) : Int := if 0 ≤ q then ⌊q⌋ else ⌈q⌉

/-- Python `%` on floats: floor-style remainder `x - m*⌊x/m⌋`. -/
def pymod (x m : ℚ) : ℚ := x - m * ⌊x / m⌋

/-- Saturating clamp `max lo (min hi x)`, the source idiom
`max(lo, min(hi, x))`. -/
def clip (lo hi x : Int) : Int := max lo (min hi x)

/-- Python `max` of a note list component (the code only applies it to
non-empty lists; the `[]` case is an unreachable default). -/
def pyMax : List Int → Int
  | [] => 0
  | x :: xs => xs.foldl max x

/-- Python `min` of an int list, as `pyMax`. -/
def pyMin : List Int → Int
  | [] => 0
  | x :: xs => xs.foldl min x

/-- Oracle supplying the float values of the φ-dependent subexpressions and
the pseudorandom draws of the source.  `phi` and `phiInv` hold the (double)
values of `self.phi` and `self.phi_inverse`. -/
structure Oracle where
  phi : ℚ
  phiInv : ℚ
  phiMul : Nat → ℚ
  sinPhi : Nat → ℚ
  sin2Phi : Nat → ℚ
  melodyRand : Nat → ℚ
  subdivRand : Nat → Bool

/-- All-zero oracle used to instantiate closed evaluations. -/
def zeroOracle : Oracle :=
  Oracle.mk 0 0 (fun _ => 0) (fun _ => 0) (fun _ => 0) (fun _ => 0)
    (fun _ => false)

/-- The scale catalog `MusicTheory.scales` (music_theory.py lines 23-49). -/
def scales : List (String × List Int) :=
  [("major", [0, 2, 4, 5, 7, 9, 11]),
   ("minor", [0, 2, 3, 5, 7, 8, 10]),
   ("harmonic_minor", [0, 2, 3, 5, 7, 8, 11]),
   ("melodic_minor", [0, 2, 3, 5, 7, 9, 11]),
   ("dorian", [0, 2, 3, 5, 7, 9, 10]),
   ("phrygian", [0, 1, 3, 5, 7, 8, 10]),
   ("lydian", [0, 2, 4, 6, 7, 9, 11]),
   ("mixolydian", [0, 2, 4, 5, 7, 9, 10]),
   ("pentatonic_major", [0, 2, 4, 7, 9]),
   ("pentatonic_minor", [0, 3, 5, 7, 10]),
   ("blues", [0, 3, 5, 6, 7, 10]),
   ("whole_tone", [0, 2, 4, 6, 8, 10]),
   ("chromatic", [0, 1, 2, 3, 4, 5, 6, 7, 8, 9, 10, 11]),
   ("japanese", [0, 1, 5, 7, 8]),
   ("arabic", [0, 1, 4, 5, 7, 8, 11]),
   ("gypsy", [0, 1, 4, 5, 7, 8, 11])]

/-- The rhythm-pattern catalog `MusicTheory.rhythm_patterns`
(music_theory.py lines 64-71). -/
def rhythm_patterns : List (String × List Nat) :=
  [("straight", [1, 0, 1, 0, 1, 0, 1, 0]),
   ("swing", [1, 0, 0, 1, 1, 0, 0, 1]),
   ("syncopated", [1, 0, 1, 1, 0, 1, 0, 1]),
   ("latin", [1, 0, 1, 0, 0, 1, 1, 0]),
   ("funk", [1, 0, 0, 1, 0, 1, 0, 0]),
   ("waltz", [1, 0, 0, 1, 0, 0])]

/-- Pattern resolution in `apply_golden_rhythm` lines 227-230: an unknown
name is replaced by `straight` before the lookup. -/
def lookupPattern (name : String) : List Nat :=
  match rhythm_patterns.lookup name with
  | some p => p
  | none => [1, 0, 1, 0, 1, 0, 1, 0]

/-- Accumulating loop of fibonacci_sequence (lines 100-102), with the
accumulator reversed (head = latest term). -/
def fibGo : Nat → List Int → List Int
  | 0, acc => acc
  | k + 1, acc => fibGo k ((acc.headD 1 + acc.tail.headD 1) :: acc)

/-- MusicTheory.fibonacci_sequence (music_theory.py lines 91-103). -/
def fibonacci_sequence (n : Int) : List Int :=
  if n ≤ 0 then []
  else if n = 1 then [1]
  else if n = 2 then [1, 1]
  else (fibGo (n.toNat - 2) [1, 1]).reverse

/-- The recursive `subdivide` closure of golden_ratio_subdivisions
(lines 114-126).  `fuel = 3 - depth`; `k` indexes the random draws. -/
def subdivideGo (o : Oracle) : Nat → Int → Nat → List Int × Nat
  | 0, length, k => ([length], k)
  | fuel + 1, length, k =>
    if length < 4 then ([length], k)
    else
      let major := pyInt ((length : ℚ) * o.phiInv)
      let minor := length - major
      if o.subdivRand k then
        let r1 := subdivideGo o fuel major (k + 1)
        let r2 := subdivideGo o fuel minor r1.2
        (r1.1 ++ r2.1, r2.2)
      else
        ([major, minor], k + 1)

/-- MusicTheory.golden_ratio_subdivisions (lines 105-129).  The top-level
`major_part`/`minor_part` of lines 108-109 are computed but never used by
the source and are omitted.  The final `sorted(..., reverse=True)` is an
insertion sort with the descending order. -/
def golden_ratio_subdivisions (o : Oracle) (total_length : Int) : List Int :=
  ((subdivideGo o 3 total_length 0).1).insertionSort (fun a b => b ≤ a)

/-- The four-element duration table of lines 141-146. -/
def goldenDurations (o : Oracle) : List Int :=
  [pyInt (480 * o.phiInv), 480, pyInt (480 * o.phi),
   pyInt (480 * (o.phi * o.phi))]

/-- Octave shift of melody index `i` (lines 162-163):
`int(math.sin(i*phi) * 2) * 12`. -/
def octave_shift (o : Oracle) (i : Nat) : Int := pyInt (o.sinPhi i * 2) * 12

/-- One iteration of the generate_golden_melody loop (lines 148-177). -/
def melodyNote (o : Oracle) (scale_notes : List Int) (fib : List Int)
    (i : Nat) : Note :=
  let phi_factor := pymod (o.phiMul i) 1
  let fib_factor : ℚ :=
    ((fib.getD (i % fib.length) 0 : Int) : ℚ) / ((pyMax fib : Int) : ℚ)
  let random_factor := o.melodyRand i * (3 / 10)
  let note_factor := (phi_factor + fib_factor + random_factor) / (23 / 10)
  let note_index :=
    (pyInt (note_factor * (scale_notes.length : ℚ))).emod
      (scale_notes.length : Int)
  let base_note := scale_notes.getD note_index.toNat 0
  let final_note := clip 21 108 (base_note + octave_shift o i)
  let duration_index := pyInt (pymod (o.phiMul i) 4)
  let duration := (goldenDurations o).getD duration_index.toNat 0
  let velocity := max 32 (min 127 (64 + pyInt (32 * o.sin2Phi i)))
  (final_note, duration, velocity)

/-- MusicTheory.generate_golden_melody (lines 131-179).  `root_note` is
accepted and ignored, exactly as in the source. -/
def generate_golden_melody (o : Oracle) (scale_notes : List Int)
    (length : Int) (root_note : Int) : List Note :=
  let fib := fibonacci_sequence length
  let _ := root_note
  (List.range length.toNat).map (melodyNote o scale_notes fib)

/-- Bass-line note derivation (lines 188-198). -/
def bassNote (o : Oracle) (n : Note) : Note :=
  let interval := (pyInt (o.phi * 7)).emod 12
  let bass_note := max 21 (n.1 - 12 - interval)
  (bass_note, n.2.1 * 2, pyInt ((n.2.2 : ℚ) * (7 / 10)))

/-- Middle-voice loop of generate_golden_harmony (lines 203-219), with the
accumulator reversed (head = most recently appended note). -/
def middleGo (o : Oracle) :
    List Note → Nat → ℚ → ℚ → List Note → List Note
  | [], _, _, _, acc => acc.reverse
  | (note, duration, velocity) :: rest, i, pos, step, acc =>
    if (i : ℚ) ≥ pos then
      let interval :=
        ([4, 7] : List Int).getD (pyInt (pymod (o.phiMul i) 2)).toNat 0
      let harmony_note := note + interval
      let acc2 :=
        if harmony_note ≤ 108 then
          (harmony_note, duration, pyInt ((velocity : ℚ) * (8 / 10))) :: acc
        else acc
      middleGo o rest (i + 1) (pos + step) (step * o.phiInv) acc2
    else
      middleGo o rest (i + 1) pos step acc

/-- MusicTheory.generate_golden_harmony (lines 181-222).  `scale_notes` is
accepted and ignored, exactly as in the source. -/
def generate_golden_harmony (o : Oracle) (melody : List Note)
    (scale_notes : List Int) : List (List Note) :=
  let _ := scale_notes
  [melody.map (bassNote o), middleGo o melody 0 0 o.phi []]

/-- The merge of a pattern-0 note into the previously emitted note
(lines 240-242), on the reversed accumulator: only the head duration
changes, by `duration // 2`. -/
def mergeLast (acc : List Note) (duration : Int) : List Note :=
  match acc with
  | [] => []
  | (p, pd, pv) :: rest => (p, pd + Int.fdiv duration 2, pv) :: rest

/-- One iteration of the apply_golden_rhythm loop (lines 233-253), on the
reversed accumulator. -/
def rhythmStep (o : Oracle) (pattern : List Nat) (i : Nat) (n : Note)
    (acc : List Note) : List Note :=
  let rhythm_factor := pattern.getD (i % pattern.length) 0
  if rhythm_factor = 0 then mergeLast acc n.2.1
  else
    let phi_rhythm_factor := 1 + (3 / 10) * o.sinPhi i
    let adjusted_duration := pyInt ((n.2.1 : ℚ) * phi_rhythm_factor)
    let velocity :=
      if (i : Int).emod (pyInt (o.phi * 2)) = 0 then
        min 127 (pyInt ((n.2.2 : ℚ) * (12 / 10)))
      else n.2.2
    (n.1, adjusted_duration, velocity) :: acc

/-- The apply_golden_rhythm loop over the melody with its running index. -/
def rhythmGo (o : Oracle) (pattern : List Nat) :
    List Note → Nat → List Note → List Note
  | [], _, acc => acc.reverse
  | n :: rest, i, acc => rhythmGo o pattern rest (i + 1) (rhythmStep o pattern i n acc)

/-- MusicTheory.apply_golden_rhythm (lines 224-255). -/
def apply_golden_rhythm (o : Oracle) (melody : List Note)
    (pattern_name : String) : List Note :=
  rhythmGo o (lookupPattern pattern_name) melody 0 []

/-- Analysis record of analyze_golden_ratios: every field optional, since
the source builds a dict whose keys are conditionally present. -/
structure Analysis where
  total_notes : Option Int
  note_range : Option Int
  avg_duration : Option ℚ
  avg_velocity : Option ℚ
  avg_interval : Option ℚ
  max_interval : Option Int
  golden_ratio_percentage : Option ℚ
  phi_duration_percentage : Option ℚ

/-- The empty record returned for an empty melody (line 291). -/
def Analysis.empty : Analysis :=
  Analysis.mk none none none none none none none none

/-- Consecutive absolute pitch intervals (lines 305-307). -/
def intervalsOf (notes : List Int) : List Int :=
  List.zipWith (fun prev cur => |cur - prev|) notes notes.tail

/-- Consecutive duration ratios with zero denominators skipped
(lines 319-323). -/
def durationRatios (durations : List Int) : List ℚ :=
  (List.zipWith
    (fun prev cur =>
      if prev ≠ 0 then some ((cur : ℚ) / (prev : ℚ)) else none)
    durations durations.tail).filterMap (fun x => x)

/-- `[int(self.phi * i) for i in range(1, 8)]` (line 314). -/
def goldenIntervals (o : Oracle) : List Int :=
  (List.range 7).map (fun k => pyInt (o.phi * ((k : ℚ) + 1)))

/-- MusicTheory.analyze_golden_ratios (lines 288-331). -/
def analyze_golden_ratios (o : Oracle) (melody : List Note) : Analysis :=
  if melody.isEmpty then Analysis.empty
  else
    let notes := melody.map (fun n => n.1)
    let durations := melody.map (fun n => n.2.1)
    let velocities := melody.map (fun n => n.2.2)
    let base := Analysis.mk (some (melody.length : Int))
      (some (pyMax notes - pyMin notes))
      (some ((((durations.sum : Int) : ℚ)) / (durations.length : ℚ)))
      (some ((((velocities.sum : Int) : ℚ)) / (velocities.length : ℚ)))
      none none none none
    let intervals := intervalsOf notes
    let a1 :=
      if intervals.isEmpty then base
      else
        let golden_ratio_count :=
          intervals.countP (fun iv => (goldenIntervals o).contains iv)
        Analysis.mk base.total_notes base.note_range base.avg_duration
          base.avg_velocity
          (some ((((intervals.sum : Int) : ℚ)) / (intervals.length : ℚ)))
          (some (pyMax intervals))
          (some ((golden_ratio_count : ℚ) / (intervals.length : ℚ) * 100))
          none
    let duration_ratios := durationRatios durations
    if duration_ratios.isEmpty then a1
    else
      let phi_ratios :=
        duration_ratios.countP
          (fun r =>
            decide (|r - o.phi| < 1 / 10 ∨ |r - o.phiInv| < 1 / 10))
      Analysis.mk a1.total_notes a1.note_range a1.avg_duration
        a1.avg_velocity a1.avg_interval a1.max_interval
        a1.golden_ratio_percentage
        (some ((phi_ratios : ℚ) / (duration_ratios.length : ℚ) * 100))

/-- Note-count formula of generate_complete_composition
(midi_generator.py lines 316-318): `int(duration_seconds * (bpm/60*2))`. -/
def totalNotesOf (duration_seconds tempo_bpm : Int) : Int :=
  pyInt ((duration_seconds : ℚ) * ((tempo_bpm : ℚ) / 60 * 2))

/-- Rhythm-pattern name of a style template (midi_generator.py
lines 62-111); an unknown style falls back to the classical template,
whose rhythm is `straight` (line 328 resp. 138). -/
def styleRhythm (style : String) : String :=
  match ([("classical", "straight"), ("jazz", "swing"), ("blues", "swing"),
          ("pop", "straight"), ("ambient", "straight"),
          ("world", "syncopated")] :
      List (String × String)).lookup style with
  | some r => r
  | none => "straight"

/-- AdvancedMidiGenerator.generate_complete_composition (midi_generator.py
lines 308-374), restricted to the core pipeline: the MIDI-track
serialization (`create_advanced_midi`) and the metadata merged into the
analysis dict are out-of-core I/O shaping and are not modelled.  The direct
dictionary access `self.music_theory.scales[scale_name]` of line 324 raises
`KeyError` on an unknown name; this is modelled as `none`.  Returns
(shaped melody, harmony parts, analysis, structure points). -/
def generate_complete_composition (o : Oracle) (style : String)
    (duration_seconds : Int) (tempo_bpm : Int) (scale_name : String)
    (root_note : Int) :
    Option (List Note × List (List Note) × Analysis × List Int) :=
  let total_notes := totalNotesOf duration_seconds tempo_bpm
  let structure_points := golden_ratio_subdivisions o total_notes
  match scales.lookup scale_name with
  | none => none
  | some scale =>
    let scale_notes := scale.map (fun interval => root_note + interval)
    let melody := generate_golden_melody o scale_notes total_notes root_note
    let melody2 := apply_golden_rhythm o melody (styleRhythm style)
    let harmony_parts := generate_golden_harmony o melody2 scale_notes
    let analysis := analyze_golden_ratios o melody2
    some (melody2, harmony_parts, analysis, structure_points)

/-- Specification-side description of the pitches kept by the rhythm
shaper: the pitches of the input notes at the indices `i` (starting from
`i0`) whose pattern entry `pattern[i mod len(pattern)]` is 1, in order. -/
def keptPitches (pattern : List Nat) : List Note → Nat → List Int
  | [], _ => []
  | n :: rest, i =>
    if pattern.getD (i % pattern.length) 0 = 1 then
      n.1 :: keptPitches pattern rest (i + 1)
    else keptPitches pattern rest (i + 1)

/-- Number of kept indices among `i, i+1, ..., i+n-1`. -/
def countKept (pattern : List Nat) : Nat → Nat → Nat
  | _, 0 => 0
  | i, n + 1 =>
    (if pattern.getD (i % pattern.length) 0 = 1 then 1 else 0) +
      countKept pattern (i + 1) n

/-- Oracle whose `sinPhi` stream is constantly -9/100, a value within
the range of sine that the true stream essentially attains at index 2:
sin(2·φ) = sin(1+√5) ≈ -0.0943 lies in (-1/2, 0) (proved below for the
real sine). -/
def cexOracle : Oracle :=
  Oracle.mk 0 0 (fun _ => 0) (fun _ => -(9 / 100)) (fun _ => 0) (fun _ => 0)
    (fun _ => false)

/-- On nonnegative arguments Python truncation agrees with the floor. -/
theorem pyInt_of_nonneg {q : ℚ} (h : 0 ≤ q) : pyInt q = ⌊q⌋ := if_pos h

/-- Truncation toward zero never exceeds the absolute bound of its
argument. -/
theorem pyInt_bounds {q : ℚ} {c : Int} (h : |q| ≤ (c : ℚ)) :
    -c ≤ pyInt q ∧ pyInt q ≤ c := by
  have hc : (0 : Int) ≤ c := by exact_mod_cast (abs_nonneg q).trans h
  unfold pyInt
  rcases le_or_lt 0 q with hq | hq
  · rw [if_pos hq]
    have h1 : (0 : Int) ≤ ⌊q⌋ := Int.floor_nonneg.mpr hq
    have h2 : ⌊q⌋ ≤ ⌊(c : ℚ)⌋ := Int.floor_le_floor ((le_abs_self q).trans h)
    rw [Int.floor_intCast] at h2
    omega
  · rw [if_neg (not_le.mpr hq)]
    have h1 : -(c : ℚ) ≤ q := neg_le_of_abs_le h
    have h2 : ⌈(-(c : ℚ) : ℚ)⌉ ≤ ⌈q⌉ := Int.ceil_le_ceil h1
    have h3 : ⌈q⌉ ≤ ⌈(0 : ℚ)⌉ := Int.ceil_le_ceil hq.le
    rw [show (-(c : ℚ) : ℚ) = ((-c : Int) : ℚ) by push_cast; ring,
      Int.ceil_intCast] at h2
    simp only [Int.ceil_zero] at h3
    omega

/-- The clamp lands in its interval. -/
theorem clip_mem {lo hi : Int} (x : Int) (h : lo ≤ hi) :
    lo ≤ clip lo hi x ∧ clip lo hi x ≤ hi :=
  ⟨le_max_left lo _, max_le h (min_le_left hi x)⟩

/-- generate_golden_melody yields one note per loop index. -/
theorem generate_golden_melody_length (o : Oracle) (s : List Int)
    (len r : Int) : (generate_golden_melody o s len r).length = len.toNat := by
  simp [generate_golden_melody]

/-- The emitted pitch is the clamp of the shifted base note. -/
theorem melodyNote_pitch_bounds (o : Oracle) (s fib : List Int) (i : Nat) :
    21 ≤ (melodyNote o s fib i).1 ∧ (melodyNote o s fib i).1 ≤ 108 :=
  clip_mem _ (by norm_num)

/-- The emitted velocity is clamped into [32, 127]. -/
theorem melodyNote_vel_bounds (o : Oracle) (s fib : List Int) (i : Nat) :
    32 ≤ (melodyNote o s fib i).2.2 ∧ (melodyNote o s fib i).2.2 ≤ 127 :=
  ⟨le_max_left 32 _, max_le (by norm_num) (min_le_left 127 _)⟩

/-- Every melody note satisfies the pitch and velocity bounds. -/
theorem melody_mem_bounds (o : Oracle) (s : List Int) (len r : Int) :
    ∀ n ∈ generate_golden_melody o s len r,
      21 ≤ n.1 ∧ n.1 ≤ 108 ∧ 32 ≤ n.2.2 ∧ n.2.2 ≤ 127 := by
  intro n hn
  simp only [generate_golden_melody, List.mem_map, List.mem_range] at hn
  obtain ⟨i, _, rfl⟩ := hn
  exact ⟨(melodyNote_pitch_bounds o s _ i).1, (melodyNote_pitch_bounds o s _ i).2,
    (melodyNote_vel_bounds o s _ i).1, (melodyNote_vel_bounds o s _ i).2⟩

/-- Merging a pattern-0 note touches only the duration of the last
emitted note: all (pitch, velocity) pairs are unchanged. -/
theorem mergeLast_map_pv (acc : List Note) (d : Int) :
    (mergeLast acc d).map (fun n => (n.1, n.2.2)) =
      acc.map (fun n => (n.1, n.2.2)) := by
  cases acc with
  | nil => rfl
  | cons h t => rcases h with ⟨p, pd, pv⟩; rfl

/-- Merging preserves the pitch sequence of the accumulator. -/
theorem mergeLast_map_pitch (acc : List Note) (d : Int) :
    (mergeLast acc d).map (fun n => n.1) = acc.map (fun n => n.1) := by
  cases acc with
  | nil => rfl
  | cons h t => rcases h with ⟨p, pd, pv⟩; rfl

/-- Interval list of a pitch sequence is one shorter. -/
theorem intervalsOf_length (ns : List Int) :
    (intervalsOf ns).length = ns.length - 1 := by
  unfold intervalsOf
  rw [List.length_zipWith, List.length_tail]
  omega

/-- A property holding for every value in an association list holds for
every successful lookup. -/
theorem lookup_forall {β : Type} (P : β → Prop) :
    ∀ l : List (String × β), (∀ pr ∈ l, P pr.2) →
      ∀ k b, l.lookup k = some b → P b := by
  intro l
  induction l with
  | nil => intro _ k b h; simp [List.lookup] at h
  | cons hd tl ih =>
    intro hall k b h
    rcases hd with ⟨hk, hv⟩
    rw [List.lookup] at h
    rcases hbeq : (k == hk) with _ | _
    · rw [hbeq] at h
      exact ih (fun pr hpr => hall pr (List.mem_cons_of_mem _ hpr)) k b h
    · rw [hbeq] at h
      simp only [Option.some.injEq] at h
      exact h ▸ hall (hk, hv) (List.mem_cons_self _ _)

/-- Every entry of every resolved rhythm pattern is 0 or 1. -/
theorem lookupPattern_binary (name : String) :
    ∀ x ∈ lookupPattern name, x ≤ 1 := by
  unfold lookupPattern
  cases h : rhythm_patterns.lookup name with
  | none => decide
  | some p =>
    exact lookup_forall (fun l => ∀ x ∈ l, x ≤ 1) rhythm_patterns
      (by decide) name p h

/-- A `getD` with default 0 is either 0 or a list entry. -/
theorem getD_zero_cases (l : List Nat) (n : Nat) :
    l.getD n 0 = 0 ∨ l.getD n 0 ∈ l := by
  rcases Nat.lt_or_ge n l.length with h | h
  · right
    rw [List.getD_eq_getElem l 0 h]
    exact List.getElem_mem h
  · left
    exact List.getD_eq_default l 0 h

/-- The pitch sequence produced by the rhythm loop: accumulator pitches
(reversed) followed by the kept input pitches. -/
theorem rhythmGo_pitches (o : Oracle) (pattern : List Nat)
    (hp : ∀ x ∈ pattern, x ≤ 1) :
    ∀ (mel : List Note) (i : Nat) (acc : List Note),
      (rhythmGo o pattern mel i acc).map (fun n => n.1) =
        (acc.reverse.map fun n => n.1) ++ keptPitches pattern mel i := by
  intro mel
  induction mel with
  | nil => intro i acc; simp [rhythmGo, keptPitches]
  | cons n rest ih =>
    intro i acc
    have hrf : pattern.getD (i % pattern.length) 0 = 0 ∨
        pattern.getD (i % pattern.length) 0 = 1 := by
      rcases getD_zero_cases pattern (i % pattern.length) with h | h
      · exact Or.inl h
      · have := hp _ h; omega
    rcases hrf with h0 | h1
    · rw [rhythmGo, ih (i + 1) _]
      have hstep : rhythmStep o pattern i n acc = mergeLast acc n.2.1 := by
        unfold rhythmStep
        rw [h0]
        simp
      rw [hstep, keptPitches, if_neg (by omega)]
      rw [List.map_reverse, List.map_reverse, mergeLast_map_pitch]
    · rw [rhythmGo, ih (i + 1) _]
      unfold rhythmStep
      rw [h1, keptPitches, if_pos h1]
      simp

/-- Length of the kept-pitch list counts the kept indices. -/
theorem keptPitches_length (pattern : List Nat) :
    ∀ (mel : List Note) (i : Nat),
      (keptPitches pattern mel i).length = countKept pattern i mel.length := by
  intro mel
  induction mel with
  | nil => intro i; rfl
  | cons n rest ih =>
    intro i
    rw [keptPitches]
    by_cases h : pattern.getD (i % pattern.length) 0 = 1
    · rw [if_pos h]
      simp only [List.length_cons, ih, List.length]
      rw [countKept, if_pos h]
      omega
    · rw [if_neg h]
      simp only [ih, List.length]
      rw [countKept, if_neg h]
      omega

/-- Every kept pitch is the pitch of some input note. -/
theorem keptPitches_mem (pattern : List Nat) :
    ∀ (mel : List Note) (i : Nat) (x : Int),
      x ∈ keptPitches pattern mel i → ∃ m ∈ mel, x = m.1 := by
  intro mel
  induction mel with
  | nil => intro i x hx; simp [keptPitches] at hx
  | cons n rest ih =>
    intro i x hx
    rw [keptPitches] at hx
    by_cases h : pattern.getD (i % pattern.length) 0 = 1
    · rw [if_pos h] at hx
      rcases List.mem_cons.mp hx with h1 | h1
      · exact ⟨n, List.mem_cons_self _ _, h1⟩
      · obtain ⟨m, hm, hxm⟩ := ih (i + 1) x h1
        exact ⟨m, List.mem_cons_of_mem _ hm, hxm⟩
    · rw [if_neg h] at hx
      obtain ⟨m, hm, hxm⟩ := ih (i + 1) x hx
      exact ⟨m, List.mem_cons_of_mem _ hm, hxm⟩

/-- At most one index in `n` consecutive indices is kept per index. -/
theorem countKept_le (pattern : List Nat) :
    ∀ (n i : Nat), countKept pattern i n ≤ n := by
  intro n
  induction n with
  | zero => intro i; exact Nat.le_refl 0
  | succ m ih =>
    intro i
    rw [countKept]
    have := ih (i + 1)
    split <;> omega

/-- The pitch sequence of the shaped melody is exactly the kept input
pitches. -/
theorem apply_golden_rhythm_pitches (o : Oracle) (mel : List Note)
    (name : String) :
    (apply_golden_rhythm o mel name).map (fun n => n.1) =
      keptPitches (lookupPattern name) mel 0 := by
  unfold apply_golden_rhythm
  rw [rhythmGo_pitches o _ (lookupPattern_binary name) mel 0 []]
  rfl

/-- The length of the shaped melody counts the kept indices. -/
theorem apply_golden_rhythm_length (o : Oracle) (mel : List Note)
    (name : String) :
    (apply_golden_rhythm o mel name).length =
      countKept (lookupPattern name) 0 mel.length := by
  have h := congrArg List.length (apply_golden_rhythm_pitches o mel name)
  rw [List.length_map, keptPitches_length] at h
  exact h

/-- The middle voice appends at most one note per melody note. -/
theorem middleGo_length (o : Oracle) :
    ∀ (mel : List Note) (i : Nat) (pos step : ℚ) (acc : List Note),
      (middleGo o mel i pos step acc).length ≤ acc.length + mel.length := by
  intro mel
  induction mel with
  | nil => intro i pos step acc; simp [middleGo]
  | cons n rest ih =>
    intro i pos step acc
    rcases n with ⟨note, duration, velocity⟩
    rw [middleGo]
    by_cases hpos : (i : ℚ) ≥ pos
    · rw [if_pos hpos]
      simp only
      by_cases h108 : note +
          ([4, 7] : List Int).getD (pyInt (pymod (o.phiMul i) 2)).toNat 0 ≤ 108
      · rw [if_pos h108]
        have := ih (i + 1) (pos + step) (step * o.phiInv)
          ((note + ([4, 7] : List Int).getD (pyInt (pymod (o.phiMul i) 2)).toNat 0,
            duration, pyInt ((velocity : ℚ) * (8 / 10))) :: acc)
        simp only [List.length_cons] at this ⊢
        omega
      · rw [if_neg h108]
        have := ih (i + 1) (pos + step) (step * o.phiInv) acc
        simp only [List.length_cons] at this ⊢
        omega
    · rw [if_neg hpos]
      have := ih (i + 1) pos step acc
      simp only [List.length_cons] at this ⊢
      omega

/-- At every split of the subdivision recursion the two parts sum back to
the split length, so the leaves always sum to the argument. -/
theorem subdivideGo_sum (o : Oracle) :
    ∀ (fuel : Nat) (len : Int) (k : Nat),
      (subdivideGo o fuel len k).1.sum = len := by
  intro fuel
  induction fuel with
  | zero => intro len k; simp [subdivideGo]
  | succ f ih =>
    intro len k
    rw [subdivideGo]
    by_cases h4 : len < 4
    · rw [if_pos h4]; simp
    · rw [if_neg h4]
      simp only []
      by_cases hr : o.subdivRand k
      · rw [if_pos hr]
        simp only [List.sum_append, ih]
        omega
      · rw [if_neg hr]
        simp only [List.sum_cons, List.sum_nil]
        omega

/-- The sorted leaf list of golden_ratio_subdivisions sums to the total
length. -/
theorem golden_ratio_subdivisions_sum (o : Oracle) (total : Int) :
    (golden_ratio_subdivisions o total).sum = total := by
  unfold golden_ratio_subdivisions
  rw [List.Perm.sum_eq (List.perm_insertionSort _ _)]
  exact subdivideGo_sum o 3 total 0

/-- analyze_golden_ratios reports the input length whenever the input is
non-empty. -/
theorem analyze_total_notes (o : Oracle) (mel : List Note) (h : mel ≠ []) :
    (analyze_golden_ratios o mel).total_notes = some (mel.length : Int) := by
  unfold analyze_golden_ratios
  rw [if_neg (by simpa [List.isEmpty_iff] using h)]
  dsimp only
  split_ifs <;> rfl

/-- With at least two notes the golden-ratio percentage is present and
falls in [0, 100]. -/
theorem analyze_grp (o : Oracle) (mel : List Note) (h2 : 2 ≤ mel.length) :
    ∃ g : ℚ, (analyze_golden_ratios o mel).golden_ratio_percentage = some g ∧
      0 ≤ g ∧ g ≤ 100 := by
  have hne : mel ≠ [] := by
    intro h
    rw [h] at h2
    simp at h2
  have hlen : (intervalsOf (mel.map fun n => n.1)).length = mel.length - 1 := by
    rw [intervalsOf_length, List.length_map]
  have hpos : 1 ≤ (intervalsOf (mel.map fun n => n.1)).length := by omega
  have hni : ¬(intervalsOf (mel.map fun n => n.1)).isEmpty = true := by
    rw [List.isEmpty_iff]
    intro h
    rw [h] at hpos
    simp at hpos
  set ivs := intervalsOf (mel.map fun n => n.1) with hivs
  set c := ivs.countP (fun iv => (goldenIntervals o).contains iv) with hc
  refine ⟨(c : ℚ) / (ivs.length : ℚ) * 100, ?_, ?_, ?_⟩
  · unfold analyze_golden_ratios
    rw [if_neg (by simpa [List.isEmpty_iff] using hne)]
    dsimp only
    rw [← hivs, ← hc, if_neg hni]
    dsimp only
    split_ifs <;> rfl
  · positivity
  · have hcle : c ≤ ivs.length := List.countP_le_length _
    have hq : (c : ℚ) / (ivs.length : ℚ) ≤ 1 := by
      rw [div_le_one (by exact_mod_cast hpos)]
      exact_mod_cast hcle
    calc (c : ℚ) / (ivs.length : ℚ) * 100 ≤ 1 * 100 := by
          exact mul_le_mul_of_nonneg_right hq (by norm_num)
      _ = 100 := by norm_num

/-- Realizability of the C3 counterexample index: the true value of
`math.sin(2*phi) = sin(1+√5)` lies in (-1/2, 0), so at melody index 2 the
octave factor `sin(2φ)·2` lies in (-1, 0): Python `int()` gives 0 while the
mathematical floor gives -1. -/
theorem sin_one_add_sqrt_five_bounds :
    -(1 / 2) < Real.sin (1 + Real.sqrt 5) ∧ Real.sin (1 + Real.sqrt 5) < 0 := by
  have h5l : (2.236 : ℝ) < Real.sqrt 5 :=
    (Real.lt_sqrt (by norm_num)).mpr (by norm_num)
  have h5u : Real.sqrt 5 < 2.2361 :=
    (Real.sqrt_lt' (by norm_num)).mpr (by norm_num)
  have hpl : 3.141592 < Real.pi := Real.pi_gt_d6
  have hpu : Real.pi < 3.141593 := Real.pi_lt_d6
  have ht0 : 0 < 1 + Real.sqrt 5 - Real.pi := by linarith
  have ht1 : 1 + Real.sqrt 5 - Real.pi < 1 / 2 := by linarith
  have htpi : 1 + Real.sqrt 5 - Real.pi < Real.pi := by linarith
  have hsin_t_pos : 0 < Real.sin (1 + Real.sqrt 5 - Real.pi) :=
    Real.sin_pos_of_pos_of_lt_pi ht0 htpi
  have hsin_t_lt : Real.sin (1 + Real.sqrt 5 - Real.pi) <
      1 + Real.sqrt 5 - Real.pi := Real.sin_lt ht0
  have hsin : Real.sin (1 + Real.sqrt 5) =
      -Real.sin (1 + Real.sqrt 5 - Real.pi) := by
    rw [show (1 : ℝ) + Real.sqrt 5 =
      Real.pi + (1 + Real.sqrt 5 - Real.pi) by ring]
    rw [Real.sin_add, Real.sin_pi, Real.cos_pi]
    ring_nf
  constructor
  · rw [hsin]; linarith
  · rw [hsin]; linarith

/-- C1 (amended): the total note count passed to the melody generator is
the truncation toward zero of duration·tempo/60·2 — equivalently, for
nonnegative inputs, the floor of duration·tempo/30 — not the value rounded
to the nearest integer. -/
theorem C1_total_notes_truncates (d b : Int) (hd : 0 ≤ d) (hb : 0 ≤ b) :
    totalNotesOf d b = ⌊(d : ℚ) * (b : ℚ) / 30⌋ := by
  unfold totalNotesOf
  rw [pyInt_of_nonneg (by positivity)]
  congr 1
  ring

/-- C1 counterexample: at duration 1 s and 110 BPM the code computes
`int(110/60*2) = 3`, while rounding 11/3 to the nearest integer gives 4. -/
theorem C1_round_counterexample :
    totalNotesOf 1 110 = 3 ∧
      totalNotesOf 1 110 ≠ round ((1 : ℚ) * ((110 : ℚ) / 60 * 2)) := by
  have h1 : totalNotesOf 1 110 = 3 := by
    norm_num [totalNotesOf, pyInt]
  have h2 : round ((1 : ℚ) * ((110 : ℚ) / 60 * 2)) = 4 := by
    rw [round_eq]
    norm_num
  exact ⟨h1, by omega⟩

/-- C1 witness: the amended formula evaluated at the end-to-end
scenario (10 s, 120 BPM) gives 40. -/
theorem C1_total_notes_witness :
    (0 : Int) ≤ 10 ∧ (0 : Int) ≤ 120 ∧
      totalNotesOf 10 120 = ⌊((10 : ℚ) * (120 : ℚ) / 30)⌋ :=
  ⟨by decide, by decide, C1_total_notes_truncates 10 120 (by decide) (by decide)⟩

/-- C2 (amended): an unknown scale name does not fall back to a default —
the direct dictionary access of line 324 fails (KeyError), aborting
generate_complete_composition, for every style, duration, tempo and root. -/
theorem C2_unknown_scale_aborts (o : Oracle) (style : String)
    (duration_seconds tempo_bpm : Int) (scale_name : String)
    (root_note : Int) (h : scales.lookup scale_name = none) :
    generate_complete_composition o style duration_seconds tempo_bpm
      scale_name root_note = none := by
  unfold generate_complete_composition
  rw [h]

/-- C2 counterexample: a concrete unknown scale name interrupts the
caller instead of completing normally. -/
theorem C2_fallback_counterexample :
    generate_complete_composition zeroOracle "classical" 10 120
      "unknown_scale" 60 = none := by
  rfl

/-- C2 witness: the amended claim applied at a second concrete unknown
name and style. -/
theorem C2_unknown_scale_witness :
    scales.lookup "foo" = none ∧
      generate_complete_composition zeroOracle "jazz" 5 100 "foo" 50 = none :=
  ⟨by rfl, C2_unknown_scale_aborts zeroOracle "jazz" 5 100 "foo" 50 (by rfl)⟩

/-- C3 (amended): the octave shift is `int(sin(i·φ)·2)·12` where `int`
truncates toward zero (for octave factors in (-1, 0) the shift is 0, not
-12 as the mathematical floor would give); whenever the sine value is in
[-1, 1] the shift is a multiple of 12 in [-24, 24], and the resulting
pitch is clipped to [21, 108]. -/
theorem C3_octave_shift_truncates (o : Oracle) (i : Nat)
    (h : |o.sinPhi i| ≤ 1) :
    octave_shift o i = pyInt (o.sinPhi i * 2) * 12 ∧
    -24 ≤ octave_shift o i ∧ octave_shift o i ≤ 24 ∧
    octave_shift o i % 12 = 0 ∧
    ∀ scale_notes fib : List Int,
      21 ≤ (melodyNote o scale_notes fib i).1 ∧
        (melodyNote o scale_notes fib i).1 ≤ 108 := by
  have habs : |o.sinPhi i * 2| ≤ ((2 : Int) : ℚ) := by
    rw [abs_mul]
    calc |o.sinPhi i| * |(2 : ℚ)| ≤ 1 * 2 :=
          mul_le_mul h (by norm_num) (abs_nonneg _) (by norm_num)
      _ = ((2 : Int) : ℚ) := by norm_num
  obtain ⟨hl, hu⟩ := pyInt_bounds habs
  refine ⟨rfl, ?_, ?_, ?_, fun s f => melodyNote_pitch_bounds o s f i⟩
  · unfold octave_shift; omega
  · unfold octave_shift; omega
  · unfold octave_shift; omega

/-- C3 counterexample: an in-range sine value in (-1/2, 0) — attained by
the true stream at index 2, see sin_one_add_sqrt_five_bounds — makes the
shift of the code 0 while the claimed floor-based shift is -12. -/
theorem C3_floor_counterexample :
    octave_shift cexOracle 2 = 0 ∧
      ⌊cexOracle.sinPhi 2 * 2⌋ * 12 = -12 ∧ |cexOracle.sinPhi 2| ≤ 1 := by
  refine ⟨?_, ?_, ?_⟩
  · norm_num [octave_shift, cexOracle, pyInt]
  · norm_num [cexOracle]
  · norm_num [cexOracle, abs_le]

/-- C3 witness: the amended claim evaluated at the zero oracle, index 0. -/
theorem C3_octave_shift_witness :
    |zeroOracle.sinPhi 0| ≤ 1 ∧
      (octave_shift zeroOracle 0 = pyInt (zeroOracle.sinPhi 0 * 2) * 12 ∧
       -24 ≤ octave_shift zeroOracle 0 ∧ octave_shift zeroOracle 0 ≤ 24 ∧
       octave_shift zeroOracle 0 % 12 = 0 ∧
       ∀ scale_notes fib : List Int,
         21 ≤ (melodyNote zeroOracle scale_notes fib 0).1 ∧
           (melodyNote zeroOracle scale_notes fib 0).1 ≤ 108) :=
  ⟨by decide, C3_octave_shift_truncates zeroOracle 0 (by decide)⟩

/-- On a known scale name the composition pipeline reduces to its four
components. -/
theorem gen_success (o : Oracle) (style : String) (d b : Int)
    (name : String) (root : Int) (scl : List Int)
    (h : scales.lookup name = some scl) :
    generate_complete_composition o style d b name root =
      some (apply_golden_rhythm o
          (generate_golden_melody o (scl.map (fun interval => root + interval))
            (totalNotesOf d b) root) (styleRhythm style),
        generate_golden_harmony o
          (apply_golden_rhythm o
            (generate_golden_melody o
              (scl.map (fun interval => root + interval)) (totalNotesOf d b)
              root) (styleRhythm style))
          (scl.map (fun interval => root + interval)),
        analyze_golden_ratios o
          (apply_golden_rhythm o
            (generate_golden_melody o
              (scl.map (fun interval => root + interval)) (totalNotesOf d b)
              root) (styleRhythm style)),
        golden_ratio_subdivisions o (totalNotesOf d b)) := by
  unfold generate_complete_composition
  rw [h]

/-- C4: for every outcome of the random draws,
generate_complete_composition(classical, 10, 120, major, 60) succeeds
with a rhythm-shaped melody of exactly 20 notes, all pitches in [21, 108],
an analysis whose total_notes is 20 and a golden_ratio_percentage present
in [0, 100]. -/
theorem C4_end_to_end_classical (o : Oracle) :
    ∃ mel harmony a sp,
      generate_complete_composition o "classical" 10 120 "major" 60 =
        some (mel, harmony, a, sp) ∧
      mel.length = 20 ∧ (∀ n ∈ mel, 21 ≤ n.1 ∧ n.1 ≤ 108) ∧
      a.total_notes = some 20 ∧
      ∃ g, a.golden_ratio_percentage = some g ∧ 0 ≤ g ∧ g ≤ 100 := by
  have hgen := gen_success o "classical" 10 120 "major" 60
    [0, 2, 4, 5, 7, 9, 11] rfl
  set scaleNotes :=
    ([0, 2, 4, 5, 7, 9, 11] : List Int).map
      (fun interval => (60 : Int) + interval) with hsn
  set mel1 :=
    generate_golden_melody o scaleNotes (totalNotesOf 10 120) 60 with hm1
  set mel2 := apply_golden_rhythm o mel1 (styleRhythm "classical") with hm2
  have htn : totalNotesOf 10 120 = 40 := by norm_num [totalNotesOf, pyInt]
  have hm1len : mel1.length = 40 := by
    rw [hm1, generate_golden_melody_length, htn]
    rfl
  have hm2len : mel2.length = 20 := by
    rw [hm2, apply_golden_rhythm_length, hm1len]
    decide
  have hne2 : mel2 ≠ [] := by
    intro h
    rw [h] at hm2len
    simp at hm2len
  have h22 : 2 ≤ mel2.length := by omega
  obtain ⟨g, hg, hg0, hg100⟩ := analyze_grp o mel2 h22
  have htotal := analyze_total_notes o mel2 hne2
  rw [hm2len] at htotal
  refine ⟨mel2, generate_golden_harmony o mel2 scaleNotes,
    analyze_golden_ratios o mel2,
    golden_ratio_subdivisions o (totalNotesOf 10 120), hgen, hm2len, ?_,
    by simpa using htotal, g, hg, hg0, hg100⟩
  intro n hn
  have hmem : n.1 ∈ mel2.map (fun n => n.1) := List.mem_map_of_mem _ hn
  rw [hm2, apply_golden_rhythm_pitches] at hmem
  obtain ⟨m, hmm, heq⟩ := keptPitches_mem _ mel1 0 n.1 hmem
  have hb := melody_mem_bounds o scaleNotes (totalNotesOf 10 120) 60 m hmm
  rw [heq]
  exact ⟨hb.1, hb.2.1⟩

/-- C5: for every non-empty scale-note list, root note and oracle,
generate_golden_melody returns exactly `length` note events when
`length ≥ 1`, each with pitch in [21, 108] and velocity in [32, 127];
for `length ≤ 0` it returns the empty sequence. -/
theorem C5_melody_contract (o : Oracle) (scale_notes : List Int)
    (length root_note : Int) (hs : scale_notes ≠ []) :
    (1 ≤ length →
      ((generate_golden_melody o scale_notes length root_note).length : Int) =
        length) ∧
    (∀ n ∈ generate_golden_melody o scale_notes length root_note,
      21 ≤ n.1 ∧ n.1 ≤ 108 ∧ 32 ≤ n.2.2 ∧ n.2.2 ≤ 127) ∧
    (length ≤ 0 →
      generate_golden_melody o scale_notes length root_note = []) := by
  refine ⟨?_, melody_mem_bounds o scale_notes length root_note, ?_⟩
  · intro h1
    rw [generate_golden_melody_length]
    omega
  · intro h0
    have : length.toNat = 0 := by omega
    simp [generate_golden_melody, this]

/-- C5 witness: the contract evaluated at the zero oracle, a three-note
scale and length 3. -/
theorem C5_melody_witness :
    ([60, 62, 64] : List Int) ≠ [] ∧
    ((1 ≤ (3 : Int) →
      ((generate_golden_melody zeroOracle [60, 62, 64] 3 60).length : Int) = 3) ∧
    (∀ n ∈ generate_golden_melody zeroOracle [60, 62, 64] 3 60,
      21 ≤ n.1 ∧ n.1 ≤ 108 ∧ 32 ≤ n.2.2 ∧ n.2.2 ≤ 127) ∧
    ((3 : Int) ≤ 0 →
      generate_golden_melody zeroOracle [60, 62, 64] 3 60 = [])) :=
  ⟨by decide, C5_melody_contract zeroOracle [60, 62, 64] 3 60 (by decide)⟩

/-- C6: for every non-negative total length and every outcome of the
random draws, the leaf lengths returned by golden_ratio_subdivisions sum
exactly to the total length. -/
theorem C6_subdivisions_sum (o : Oracle) (total_length : Int)
    (h : 0 ≤ total_length) :
    (golden_ratio_subdivisions o total_length).sum = total_length :=
  golden_ratio_subdivisions_sum o total_length

/-- C6 witness: the sum property evaluated at the zero oracle and total
length 20. -/
theorem C6_subdivisions_witness :
    (0 : Int) ≤ 20 ∧ (golden_ratio_subdivisions zeroOracle 20).sum = 20 :=
  ⟨by decide, C6_subdivisions_sum zeroOracle 20 (by decide)⟩

/-- C7: generate_golden_harmony returns exactly two voices in the fixed
order [bass, middle]; the bass has one note per melody note, and the
middle voice is at most as long as the melody. -/
theorem C7_harmony_shape (o : Oracle) (melody : List Note)
    (scale_notes : List Int) :
    ∃ bass middle,
      generate_golden_harmony o melody scale_notes = [bass, middle] ∧
      bass.length = melody.length ∧ middle.length ≤ melody.length := by
  refine ⟨melody.map (bassNote o), middleGo o melody 0 0 o.phi [], rfl,
    List.length_map _ _, ?_⟩
  have := middleGo_length o melody 0 0 o.phi []
  simpa using this

/-- C8: for every input sequence and pattern name (known or unknown), the
rhythm-shaped output has at most the length of the input. -/
theorem C8_rhythm_never_lengthens (o : Oracle) (melody : List Note)
    (pattern_name : String) :
    (apply_golden_rhythm o melody pattern_name).length ≤ melody.length := by
  rw [apply_golden_rhythm_length]
  exact countKept_le _ _ _

/-- C9: analyze_golden_ratios maps the empty sequence to the empty record
without failing, and maps the single note (60, 480, 80) to a record with
total_notes = 1, note_range = 0 and none of the interval or
duration-ratio fields. -/
theorem C9_analyzer_edge_cases (o : Oracle) :
    analyze_golden_ratios o [] = Analysis.empty ∧
    (analyze_golden_ratios o [(60, 480, 80)]).total_notes = some 1 ∧
    (analyze_golden_ratios o [(60, 480, 80)]).note_range = some 0 ∧
    (analyze_golden_ratios o [(60, 480, 80)]).avg_interval = none ∧
    (analyze_golden_ratios o [(60, 480, 80)]).max_interval = none ∧
    (analyze_golden_ratios o [(60, 480, 80)]).golden_ratio_percentage = none ∧
    (analyze_golden_ratios o [(60, 480, 80)]).phi_duration_percentage = none :=
  ⟨rfl, rfl, rfl, rfl, rfl, rfl, rfl⟩

/-- C10: the rhythm shaper never changes a pitch — the output pitch
sequence is exactly the input pitches at the indices whose pattern entry
is 1, in input order; and merging a pattern-0 note changes only the
duration of the previously emitted note, never its pitch or velocity. -/
theorem C10_rhythm_pitch_frame (o : Oracle) (melody : List Note)
    (pattern_name : String) :
    (apply_golden_rhythm o melody pattern_name).map (fun n => n.1) =
      keptPitches (lookupPattern pattern_name) melody 0 ∧
    ∀ (acc : List Note) (d : Int),
      (mergeLast acc d).map (fun n => (n.1, n.2.2)) =
        acc.map (fun n => (n.1, n.2.2)) :=
  ⟨apply_golden_rhythm_pitches o melody pattern_name,
   fun acc d => mergeLast_map_pv acc d⟩

end RandomMidi
